import Mathlib

/-
  Verification of the xsys-lang core (src/main.ts).

  Strings are modelled as `List Char`.  The JavaScript string primitives the
  source uses (trim, startsWith at an index, includes, split, replace with a
  case-insensitive pattern) are embedded as executable list functions below,
  and the parser / evaluator of the source are translated function by
  function on top of them.  `parseExpression` recurses on strict substrings;
  it is embedded with an explicit fuel argument (structural recursion), and
  the top-level entry point supplies fuel `length + 1`, which the strictly
  shrinking arguments never exhaust.
-/

namespace XSys

/-- Whitespace test matching the characters JavaScript `trim` and `\s`
    remove for the ASCII inputs of this language. -/
def isWS (c : Char) : Bool :=
  c == ' ' || c == '\t' || c == '\n' || c == '\r' || c == '\x0b' || c == '\x0c'

/-- JavaScript `String.prototype.trim` on a list of characters. -/
def trimStr (l : List Char) : List Char :=
  ((l.dropWhile isWS).reverse.dropWhile isWS).reverse

/-- JavaScript `str.startsWith(pat)`: `pat` is an initial segment of `l`. -/
def leadsWith : List Char → List Char → Bool
  | [], _ => true
  | _ :: _, [] => false
  | p :: ps, c :: cs => p == c && leadsWith ps cs

/-- JavaScript `str.includes(pat)` (case-sensitive containment). -/
def containsTok (pat : List Char) : List Char → Bool
  | [] => leadsWith pat []
  | c :: rest => leadsWith pat (c :: rest) || containsTok pat rest

/-- Case-insensitive character comparison (ASCII case folding). -/
def eqCI (a b : Char) : Bool := a.toLower == b.toLower

/-- Case-insensitive `startsWith`. -/
def leadsWithCI : List Char → List Char → Bool
  | [], _ => true
  | _ :: _, [] => false
  | p :: ps, c :: cs => eqCI p c && leadsWithCI ps cs

/-- JavaScript `str.replace(/pat/i, '')`: delete the first (leftmost)
    case-insensitive occurrence of `pat`, if any. -/
def removeFirstCI (pat : List Char) : List Char → List Char
  | [] => []
  | c :: rest =>
    if leadsWithCI pat (c :: rest) then (c :: rest).drop pat.length
    else c :: removeFirstCI pat rest

/-- JavaScript `str.split(sep)`: split at every occurrence of `sep`. -/
def splitAll (sep : Char) : List Char → List (List Char)
  | [] => [[]]
  | c :: rest =>
    let r := splitAll sep rest
    if c == sep then [] :: r
    else
      match r with
      | h :: t => (c :: h) :: t
      | [] => [[c]]

/-- A named declaration: `type Variable = { name, value }` in the source. -/
structure Variable where
  name : List Char
  value : List Char
  deriving DecidableEq, Repr

/-- A leaf condition: `type Condition = { variable, negated }` in the source
    (`variable` is a reserved word in Lean, hence the field name `varName`). -/
structure Condition where
  varName : List Char
  negated : Bool
  deriving DecidableEq, Repr

/-- The expression tree: `type Expression` in the source.  The `operator`
    field of a logical node is kept as a raw string because the source
    stores `exprStr.substring(i, i + 3).trim()` there without validating it
    against the two expected operator names. -/
inductive Expression where
  | condition (c : Condition)
  | logical (operator : List Char) (left right : Expression)
  deriving DecidableEq, Repr

/-- A rule: `type Rule = { expression, result }` in the source. -/
structure Rule where
  expression : Expression
  result : List Char
  deriving DecidableEq, Repr

/-- The `SyntaxError` values thrown by the parsing functions of the source,
    with the data interpolated into each message.  `ruleWrapped` is the
    re-thrown error of `parseRules` that wraps an inner parse error with the
    rule's line number and raw line.  `noFuel` is the out-of-fuel marker of
    the fuelled embedding of `parseExpression`; it corresponds to no source
    behaviour and is never produced at the fuel the entry point supplies. -/
inductive ParseError where
  | malformedDeclaration (lineNum : Nat) (line : List Char) (blockName : List Char)
  | invalidCondition (condStr : List Char)
  | invalidLogicalExpression (exprStr : List Char)
  | malformedRule (lineNum : Nat) (line : List Char)
  | ruleWrapped (lineNum : Nat) (line : List Char) (inner : ParseError)
  | noFuel
  deriving DecidableEq, Repr

instance {ε α : Type} [DecidableEq ε] [DecidableEq α] : DecidableEq (Except ε α) := fun x y =>
  match x, y with
  | .ok a, .ok b =>
    if h : a = b then isTrue (by rw [h]) else isFalse (by intro hc; cases hc; exact h rfl)
  | .error a, .error b =>
    if h : a = b then isTrue (by rw [h]) else isFalse (by intro hc; cases hc; exact h rfl)
  | .ok _, .error _ => isFalse (by intro hc; cases hc)
  | .error _, .ok _ => isFalse (by intro hc; cases hc)

/-- One line of a `stmt`/`results` block: `line.split('=').map(trim)` must
    produce exactly two parts, else the `Invalid variable declaration`
    error (source `parseVariables`, map body). -/
def parseVarLine (line : List Char) (idx : Nat) (blockName : List Char) :
    Except ParseError Variable :=
  let parts := (splitAll '=' line).map trimStr
  match parts with
  | [name, value] => .ok ⟨name, value⟩
  | _ => .error (.malformedDeclaration (idx + 1) line blockName)

/-- Source `parseVariables`: split the block into lines, keep the non-blank
    ones, and parse each in order (the reported line number is the 1-based
    index among the non-blank lines, as in the source's `map` after
    `filter`). -/
def parseVariables (block blockName : List Char) : Except ParseError (List Variable) :=
  let lines := (splitAll '\n' block).filter (fun l => !(trimStr l).isEmpty)
  lines.enum.mapM (fun p => parseVarLine p.2 p.1 blockName)

/-- Source `parseCondition`: `negated` is the case-SENSITIVE
    `condStr.includes('NOT')`; the variable text is the case-INSENSITIVE
    `condStr.replace(/NOT/i, '')`, trimmed; empty remaining text fails. -/
def parseCondition (condStr : List Char) : Except ParseError Condition :=
  let negated := containsTok "NOT".data condStr
  let varName := trimStr (removeFirstCI "NOT".data condStr)
  if varName.isEmpty then .error (.invalidCondition condStr)
  else .ok ⟨varName, negated⟩

/-- One step of the scanner's depth bookkeeping: `if (char === '(') depth++;
    if (char === ')') depth--;` in source `parseExpression`. -/
def depthStep (d : Int) (c : Char) : Int :=
  if c = '(' then d + 1 else if c = ')' then d - 1 else d

/-- The scanning loop of source `parseExpression`: walk the characters
    updating the depth, and return the first index at which the depth
    (updated through the current character) is 0 and the literal token
    `AND` or `OR` starts. -/
def findOp : List Char → Int → Option Nat
  | [], _ => none
  | c :: rest, d =>
    let d2 := depthStep d c
    if d2 == 0 && (leadsWith "AND".data (c :: rest) || leadsWith "OR".data (c :: rest)) then
      some 0
    else
      (findOp rest d2).map (· + 1)

/-- Source `parseExpression`, fuelled.  Trims; strips one layer of
    parentheses whenever the trimmed string starts with `(` and ends with
    `)`; otherwise splits at the first depth-0 `AND`/`OR` token (the
    operator stored is `substring(i, i+3).trim()`, the left and right parts
    must be non-empty after trimming), and with no such token parses a leaf
    condition. -/
def parseExpression : Nat → List Char → Except ParseError Expression
  | 0, _ => .error .noFuel
  | fuel + 1, exprStr =>
    let t := trimStr exprStr
    if t.head? == some '(' && t.getLast? == some ')' then
      parseExpression fuel ((t.drop 1).dropLast)
    else
      match findOp t 0 with
      | some i =>
        let operator := trimStr ((t.drop i).take 3)
        let left := trimStr (t.take i)
        let right := trimStr (t.drop (i + 3))
        if left.isEmpty || right.isEmpty then
          .error (.invalidLogicalExpression t)
        else
          match parseExpression fuel left with
          | .error e => .error e
          | .ok l =>
            match parseExpression fuel right with
            | .error e => .error e
            | .ok r => .ok (.logical operator l r)
      | none => (parseCondition t).map .condition

/-- Entry point: every recursive call of `parseExpression` is on a strictly
    shorter string, so `length + 1` units of fuel are never exhausted. -/
def parseExpressionTop (exprStr : List Char) : Except ParseError Expression :=
  parseExpression (exprStr.length + 1) exprStr

/-- JavaScript `\w` (word character): letter, digit or underscore. -/
def isWordChar (c : Char) : Bool :=
  ('A' ≤ c && c ≤ 'Z') || ('a' ≤ c && c ≤ 'z') || ('0' ≤ c && c ≤ '9') || c == '_'

/-- Match the tail `\s+THEN\s+(\w+)` of the rule pattern as a PREFIX of `l`
    (the rest of the line may remain unconsumed), returning the `\w+`
    capture.  Both `\s+` runs here are deterministic: giving back a
    whitespace character can never help, because the following literal
    (`THEN`, resp. a word character) is not whitespace. -/
def tailMatch (l : List Char) : Option (List Char) :=
  let r1 := l.dropWhile isWS
  if (l.takeWhile isWS).isEmpty then none
  else if leadsWith "THEN".data r1 then
    let r2 := r1.drop 4
    let r3 := r2.dropWhile isWS
    if (r2.takeWhile isWS).isEmpty then none
    else
      let w := r3.takeWhile isWordChar
      if w.isEmpty then none else some w
  else none

/-- JavaScript `.` (without the `s` flag): any character except a line
    terminator (`\n`, `\r`, U+2028, U+2029). -/
def isDot (c : Char) : Bool :=
  !(c == '\n' || c == '\r' || c == '\u2028' || c == '\u2029')

/-- Greedy `(.*)` backtracking: try the capture `body.take j`, then
    `body.take (j-1)`, ..., down to the empty capture, and return the first
    split whose remainder matches the tail of the pattern.  The caller
    bounds `j` by the longest run of characters `.` can match, so every
    attempted capture is one `(.*)` itself could produce. -/
def tryStar (body : List Char) : Nat → Option (List Char × List Char)
  | 0 =>
    match tailMatch body with
    | some g2 => some ([], g2)
    | none => none
  | j + 1 =>
    match tailMatch (body.drop (j + 1)) with
    | some g2 => some (body.take (j + 1), g2)
    | none => tryStar body j

/-- Greedy `\s+` after `IF`: try consuming `k` whitespace characters
    (longest first, at least one) and then the greedy star on what is
    left.  The star is capped at the initial run of non-line-terminator
    characters, because `.` never matches a line terminator such as a
    mid-line `\r` (rule lines are split on `\n` only, so a `\r` can
    occur inside one). -/
def tryWs (rest : List Char) : Nat → Option (List Char × List Char)
  | 0 => none
  | k + 1 =>
    match tryStar (rest.drop (k + 1)) (((rest.drop (k + 1)).takeWhile isDot).length) with
    | some r => some r
    | none => tryWs rest k

/-- Attempt the pattern `IF\s+(.*)\s+THEN\s+(\w+)` anchored at the start of
    `l`, with JavaScript backtracking semantics, returning the two capture
    groups. -/
def matchIFAt (l : List Char) : Option (List Char × List Char) :=
  if leadsWith "IF".data l then
    let rest := l.drop 2
    tryWs rest ((rest.takeWhile isWS).length)
  else none

/-- JavaScript `line.match(/IF\s+(.*)\s+THEN\s+(\w+)/)`: the match starting
    at the leftmost possible position wins. -/
def regexMatchRule : List Char → Option (List Char × List Char)
  | [] => none
  | c :: rest =>
    match matchIFAt (c :: rest) with
    | some r => some r
    | none => regexMatchRule rest

/-- Source `parseRules`: split into non-blank lines; each line must match
    the `IF ... THEN <word>` pattern, the first capture is handed to the
    expression parser, and an inner parse error is re-thrown wrapped with
    the rule's line number and raw line. -/
def parseRules (block : List Char) : Except ParseError (List Rule) :=
  let lines := (splitAll '\n' block).filter (fun l => !(trimStr l).isEmpty)
  lines.enum.mapM (fun p =>
    match regexMatchRule p.2 with
    | none => .error (.malformedRule (p.1 + 1) p.2)
    | some (conditionsStr, result) =>
      match parseExpressionTop conditionsStr with
      | .ok e => .ok (⟨e, result⟩ : Rule)
      | .error err => .error (.ruleWrapped (p.1 + 1) p.2 err))

/-- The runtime answer set: a JavaScript object mapping statement names to
    the selected radio value (`answers[key]` is `undefined` for an
    unanswered question). -/
abbrev Answers : Type := List Char → Option (List Char)

/-- Source `evaluateExpression` (in the generated page script): a condition
    compares the answer with exactly `'yes'` (or `'no'` when negated); a
    logical node evaluates both children and combines them when the
    operator is `'AND'` or `'OR'`, and anything else falls through to
    `false`. -/
def evaluateExpression : Expression → Answers → Bool
  | .condition c, answers =>
    let answer := answers c.varName
    if c.negated then answer == some "no".data
    else answer == some "yes".data
  | .logical op l r, answers =>
    let left := evaluateExpression l answers
    let right := evaluateExpression r answers
    if op == "AND".data then left && right
    else if op == "OR".data then left || right
    else false

/-- `allResults.find(r => r.name === rule.result)` in the page script. -/
def findResult (results : List Variable) (name : List Char) : Option Variable :=
  results.find? (fun r => r.name == name)

/-- One iteration of the rule engine's `rules.forEach` body: when the rule's
    expression evaluates to true and its result name resolves, the running
    value is overwritten with the resolved result text, otherwise it is left
    unchanged. -/
def selectStep (results : List Variable) (answers : Answers) (acc : List Char)
    (rule : Rule) : List Char :=
  if evaluateExpression rule.expression answers then
    match findResult results rule.result with
    | some resultVar => resultVar.value
    | none => acc
  else acc

/-- The rule engine of the page script: starting from the empty string
    (`let result = ''`), visit the rules in declaration order applying
    `selectStep`. -/
def selectResult (rules : List Rule) (results : List Variable) (answers : Answers) :
    List Char :=
  rules.foldl (selectStep results answers) []

/-- The token test of the scanning loop at index `j` of `t`: the literal
    token `AND` or `OR` starts there. -/
def opTokenAt (t : List Char) (j : Nat) : Bool :=
  leadsWith "AND".data (t.drop j) || leadsWith "OR".data (t.drop j)

/-- Index `j` of `t` is a top-level operator position as the scanner sees
    it: the parenthesis depth accumulated through character `j` is zero and
    an `AND`/`OR` token starts at `j`. -/
def isTopOpAt (t : List Char) (j : Nat) : Prop :=
  (t.take (j + 1)).foldl depthStep 0 = 0 ∧ opTokenAt t j = true

/- ----------------------------------------------------------------- -/
/- Helper lemmas                                                      -/
/- ----------------------------------------------------------------- -/

theorem splitAll_ne_nil (sep : Char) (l : List Char) : splitAll sep l ≠ [] := by
  induction l with
  | nil => simp [splitAll]
  | cons c rest ih =>
    simp only [splitAll]
    split
    · simp
    · rcases h : splitAll sep rest with _ | ⟨hd, tl⟩
      · exact absurd h ih
      · simp [h]

theorem splitAll_no_sep (sep : Char) (l : List Char) (h : sep ∉ l) :
    splitAll sep l = [l] := by
  induction l with
  | nil => rfl
  | cons c rest ih =>
    have hc : ¬((c == sep) = true) := by
      simp only [beq_iff_eq]
      rintro rfl
      exact h (List.mem_cons_self c rest)
    have hrest : sep ∉ rest := fun hm => h (List.mem_cons_of_mem c hm)
    simp only [splitAll]
    rw [if_neg hc, ih hrest]

theorem splitAll_split (sep : Char) (pre post : List Char) (h : sep ∉ pre) :
    splitAll sep (pre ++ sep :: post) = pre :: splitAll sep post := by
  induction pre with
  | nil =>
    simp only [List.nil_append, splitAll]
    rw [if_pos (by simp)]
  | cons c pre ih =>
    have hc : ¬((c == sep) = true) := by
      simp only [beq_iff_eq]
      rintro rfl
      exact h (List.mem_cons_self c pre)
    have hpre : sep ∉ pre := fun hm => h (List.mem_cons_of_mem c hm)
    simp only [List.cons_append, splitAll, List.append_eq]
    rw [if_neg hc, ih hpre]

theorem splitAll_length (sep : Char) (l : List Char) :
    (splitAll sep l).length = l.count sep + 1 := by
  induction l with
  | nil => rfl
  | cons c rest ih =>
    simp only [splitAll]
    by_cases hc : c = sep
    · rw [if_pos (by simp [hc])]
      simp [List.count_cons, hc, ih]
    · rw [if_neg (by simp [hc])]
      rcases hr : splitAll sep rest with _ | ⟨hd, tl⟩
      · exact absurd hr (splitAll_ne_nil sep rest)
      · rw [hr] at ih
        simp only [List.length_cons] at ih ⊢
        simp [List.count_cons, hc]
        omega

theorem findOp_first (t : List Char) : ∀ (d : Int) (i : Nat),
    findOp t d = some i →
    ((t.take (i + 1)).foldl depthStep d = 0 ∧ opTokenAt t i = true) ∧
    (∀ j, j < i → ¬((t.take (j + 1)).foldl depthStep d = 0 ∧ opTokenAt t j = true)) := by
  induction t with
  | nil => intro d i h; simp [findOp] at h
  | cons c rest ih =>
    intro d i h
    simp only [findOp] at h
    by_cases hc : (depthStep d c == 0 &&
        (leadsWith "AND".data (c :: rest) || leadsWith "OR".data (c :: rest))) = true
    · rw [if_pos hc] at h
      have hi : (0 : Nat) = i := Option.some.inj h
      subst hi
      rw [Bool.and_eq_true, beq_iff_eq] at hc
      refine ⟨⟨?_, ?_⟩, ?_⟩
      · simpa using hc.1
      · simpa [opTokenAt] using hc.2
      · intro j hj
        exact absurd hj (Nat.not_lt_zero j)
    · rw [if_neg hc] at h
      rcases Option.map_eq_some'.mp h with ⟨i', hi', rfl⟩
      obtain ⟨⟨hmain, htok⟩, hmin⟩ := ih (depthStep d c) i' hi'
      refine ⟨⟨?_, ?_⟩, ?_⟩
      · rw [List.take_succ_cons, List.foldl_cons]
        exact hmain
      · simpa [opTokenAt, List.drop_succ_cons] using htok
      · intro j hj
        cases j with
        | zero =>
          rintro ⟨h1, h2⟩
          apply hc
          simp only [List.take_succ_cons, List.take_zero, List.foldl_cons,
            List.foldl_nil] at h1
          simp only [opTokenAt, List.drop_zero] at h2
          simp [h1, h2]
        | succ j' =>
          rintro ⟨h1, h2⟩
          have hj' : j' < i' := by omega
          refine hmin j' hj' ⟨?_, ?_⟩
          · simpa [List.take_succ_cons, List.foldl_cons] using h1
          · simpa [opTokenAt, List.drop_succ_cons] using h2

theorem foldl_selectStep_skip (results : List Variable) (a : Answers) :
    ∀ (rules : List Rule) (acc : List Char),
      (∀ r ∈ rules, evaluateExpression r.expression a = false ∨
        findResult results r.result = none) →
      rules.foldl (selectStep results a) acc = acc := by
  intro rules
  induction rules with
  | nil => intro acc _; rfl
  | cons r rest ih =>
    intro acc h
    have hr := h r (List.mem_cons_self r rest)
    have hstep : selectStep results a acc r = acc := by
      rcases hr with hr | hr
      · simp [selectStep, hr]
      · simp [selectStep, hr]
    rw [List.foldl_cons, hstep]
    exact ih acc (fun r' hm => h r' (List.mem_cons_of_mem r hm))

theorem tryStar_greedy (body : List Char) : ∀ (j : Nat) (g1 g2 : List Char),
    tryStar body j = some (g1, g2) →
    ∃ k, k ≤ j ∧ g1 = body.take k ∧ tailMatch (body.drop k) = some g2 ∧
      ∀ m, k < m → m ≤ j → tailMatch (body.drop m) = none := by
  intro j
  induction j with
  | zero =>
    intro g1 g2 h
    rcases htm : tailMatch body with _ | g2'
    · simp [tryStar, htm] at h
    · simp only [tryStar, htm, Option.some.injEq, Prod.mk.injEq] at h
      obtain ⟨rfl, rfl⟩ := h
      exact ⟨0, Nat.le_refl 0, by simp, by simpa using htm,
        fun m h1 h2 => absurd (Nat.lt_of_lt_of_le h1 h2) (Nat.lt_irrefl 0)⟩
  | succ j ih =>
    intro g1 g2 h
    rcases htm : tailMatch (body.drop (j + 1)) with _ | g2'
    · simp only [tryStar, htm] at h
      obtain ⟨k, hk, hg1, htm2, hmin⟩ := ih g1 g2 h
      refine ⟨k, Nat.le_succ_of_le hk, hg1, htm2, ?_⟩
      intro m h1 h2
      rcases Nat.eq_or_lt_of_le h2 with hm | hm
      · rw [hm]; exact htm
      · exact hmin m h1 (Nat.lt_succ_iff.mp hm)
    · simp only [tryStar, htm, Option.some.injEq, Prod.mk.injEq] at h
      obtain ⟨rfl, rfl⟩ := h
      refine ⟨j + 1, Nat.le_refl _, rfl, htm, ?_⟩
      intro m h1 h2
      exact absurd (Nat.lt_of_lt_of_le h1 h2) (Nat.lt_irrefl _)

theorem take_le_takeWhile_all (p : Char → Bool) (l : List Char) (k : Nat)
    (hk : k ≤ (l.takeWhile p).length) : ∀ c ∈ l.take k, p c = true := by
  intro c hc
  rcases List.takeWhile_prefix (l := l) p with ⟨t, ht⟩
  have heq : l.take k = (l.takeWhile p).take k := by
    conv_lhs => rw [← ht]
    rw [List.take_append_eq_append_take, Nat.sub_eq_zero_of_le hk,
      List.take_zero, List.append_nil]
  rw [heq] at hc
  exact List.mem_takeWhile_imp (List.take_subset k _ hc)

theorem tryWs_star_dots (rest : List Char) : ∀ (k : Nat) (g1 g2 : List Char),
    tryWs rest k = some (g1, g2) → ∀ c ∈ g1, isDot c = true := by
  intro k
  induction k with
  | zero => intro g1 g2 h; simp [tryWs] at h
  | succ k ih =>
    intro g1 g2 h
    simp only [tryWs] at h
    rcases hts : tryStar (rest.drop (k + 1))
        (((rest.drop (k + 1)).takeWhile isDot).length) with _ | pr
    · rw [hts] at h
      exact ih g1 g2 h
    · rw [hts] at h
      obtain ⟨k', hk', hg1, -, -⟩ :=
        tryStar_greedy (rest.drop (k + 1))
          (((rest.drop (k + 1)).takeWhile isDot).length) g1 g2 (hts.trans h)
      rw [hg1]
      exact take_le_takeWhile_all isDot (rest.drop (k + 1)) k' hk'

/- ----------------------------------------------------------------- -/
/- Claim theorems                                                     -/
/- ----------------------------------------------------------------- -/

/-- Claim C1: the expression parser splits a condition string at the first
    (leftmost) top-level operator token found in scanning order — `findOp`
    returns the least index that is a top-level operator position — and in
    particular `A AND B OR C` parses with root `AND`, left child the
    condition `A` and right child `Logical(OR, B, C)`. -/
theorem claim1_leftmost_split :
    (∀ (t : List Char) (i : Nat), findOp t 0 = some i →
      isTopOpAt t i ∧ ∀ j, j < i → ¬ isTopOpAt t j) ∧
    parseExpressionTop "A AND B OR C".data =
      .ok (.logical "AND".data (.condition ⟨"A".data, false⟩)
        (.logical "OR".data (.condition ⟨"B".data, false⟩)
          (.condition ⟨"C".data, false⟩))) := by
  constructor
  · intro t i h
    exact findOp_first t 0 i h
  · decide

/-- Witness for claim C1 at the concrete input `A AND B OR C`, whose first
    top-level operator position is index 2 (the `AND`). -/
theorem claim1_leftmost_split_witness :
    isTopOpAt "A AND B OR C".data 2 ∧
      ∀ j, j < 2 → ¬ isTopOpAt "A AND B OR C".data j :=
  claim1_leftmost_split.1 "A AND B OR C".data 2 (by decide)

/-- Claim C2, counterexample: the declaration line `a = x = y` does NOT
    parse with value `x = y`; `line.split('=')` splits at every `=`, three
    parts come back, and the line is rejected as a malformed declaration. -/
theorem claim2_counterexample :
    parseVariables "a = x = y".data "stmt".data =
      .error (.malformedDeclaration 1 "a = x = y".data "stmt".data) ∧
    parseVariables "a = x = y".data "stmt".data ≠
      .ok [⟨"a".data, "x = y".data⟩] := by decide

/-- Claim C2 as amended: a declaration line is split at EVERY `=`; it
    parses (into the trimmed left and right parts) exactly when it contains
    exactly one `=`, and any other number of `=` characters fails with the
    malformed-declaration error. -/
theorem claim2_amended_split_on_every_eq :
    (∀ (pre post : List Char) (idx : Nat) (bn : List Char),
      '=' ∉ pre → '=' ∉ post →
      parseVarLine (pre ++ '=' :: post) idx bn = .ok ⟨trimStr pre, trimStr post⟩) ∧
    (∀ (line : List Char) (idx : Nat) (bn : List Char),
      line.count '=' ≠ 1 →
      parseVarLine line idx bn = .error (.malformedDeclaration (idx + 1) line bn)) := by
  constructor
  · intro pre post idx bn h1 h2
    simp only [parseVarLine]
    rw [splitAll_split '=' pre post h1, splitAll_no_sep '=' post h2]
    rfl
  · intro line idx bn hcount
    simp only [parseVarLine]
    have hlen : ((splitAll '=' line).map trimStr).length = line.count '=' + 1 := by
      rw [List.length_map, splitAll_length]
    rcases hp : (splitAll '=' line).map trimStr with _ | ⟨a, _ | ⟨b, _ | ⟨c, rest⟩⟩⟩
    · rfl
    · rfl
    · exfalso
      rw [hp] at hlen
      simp only [List.length_cons, List.length_nil] at hlen
      omega
    · rfl

/-- Witness for the amended claim C2 on the well-formed line `a = b`. -/
theorem claim2_amended_witness :
    parseVarLine ("a ".data ++ '=' :: " b".data) 0 "stmt".data =
      .ok ⟨trimStr "a ".data, trimStr " b".data⟩ :=
  claim2_amended_split_on_every_eq.1 "a ".data " b".data 0 "stmt".data
    (by decide) (by decide)

/-- Claim C3, counterexample: for the input `not x` the parsed condition
    has `negated = false`, not `negated = true`, because the negation flag
    comes from the case-SENSITIVE `condStr.includes('NOT')` even though the
    `NOT` text is stripped case-insensitively. -/
theorem claim3_counterexample :
    parseCondition "not x".data = .ok ⟨"x".data, false⟩ ∧
    (Except.ok (⟨"x".data, false⟩ : Condition) : Except ParseError Condition) ≠
      .ok ⟨"x".data, true⟩ := by decide

/-- Claim C3 as amended: `negated` is true exactly when the condition
    string contains `NOT` in upper case (case-sensitively); the stripping
    of the first case-insensitive `NOT` occurrence happens regardless, so
    `NOT x` gives a negated condition while `Not x` and `not x` give
    non-negated conditions with the same variable `x`. -/
theorem claim3_amended_negation_case_sensitive :
    (∀ (s : List Char) (c : Condition), parseCondition s = .ok c →
      c.negated = containsTok "NOT".data s) ∧
    parseCondition "NOT x".data = .ok ⟨"x".data, true⟩ ∧
    parseCondition "Not x".data = .ok ⟨"x".data, false⟩ ∧
    parseCondition "not x".data = .ok ⟨"x".data, false⟩ := by
  refine ⟨?_, by decide, by decide, by decide⟩
  intro s c h
  simp only [parseCondition] at h
  by_cases he : (trimStr (removeFirstCI "NOT".data s)).isEmpty = true
  · rw [if_pos he] at h
    cases h
  · rw [if_neg he] at h
    rw [← Except.ok.inj h]

/-- Witness for the amended claim C3 at `NOT x`. -/
theorem claim3_amended_witness :
    (⟨"x".data, true⟩ : Condition).negated = containsTok "NOT".data "NOT x".data :=
  claim3_amended_negation_case_sensitive.1 "NOT x".data ⟨"x".data, true⟩ (by decide)

/-- Claim C4, counterexample: the accepted input `A OR(B)` produces a
    logical root whose operator is the three-character slice `OR(` — neither
    `AND` nor `OR` — because the source stores `substring(i, i+3).trim()`
    without validating it. -/
theorem claim4_counterexample :
    parseExpressionTop "A OR(B)".data =
      .ok (.logical "OR(".data (.condition ⟨"A".data, false⟩)
        (.condition ⟨"B)".data, false⟩)) ∧
    "OR(".data ≠ "AND".data ∧ "OR(".data ≠ "OR".data := by decide

/-- Claim C4 as amended: the operator of a logical node is the trimmed
    three-character slice at the split position, so an `OR` immediately
    followed by a non-whitespace character yields an operator such as `OR(`;
    the evaluator returns false on every logical node whose operator is not
    exactly `AND` or `OR`. -/
theorem claim4_amended_operator_capture :
    parseExpressionTop "A OR(B)".data =
      .ok (.logical "OR(".data (.condition ⟨"A".data, false⟩)
        (.condition ⟨"B)".data, false⟩)) ∧
    ∀ (l r : Expression) (a : Answers),
      evaluateExpression (.logical "OR(".data l r) a = false := by
  exact ⟨by decide, fun l r a => rfl⟩

/-- Claim C5, counterexample: `(A) OR (B)` — whose first `(` closes before
    the end — IS stripped (the source checks only that the trimmed string
    starts with `(` and ends with `)`), and the interior `A) OR (B` has no
    depth-0 operator, so the whole input parses as a single leaf condition
    instead of `Logical(OR, (A), (B))`. -/
theorem claim5_counterexample :
    parseExpressionTop "(A) OR (B)".data =
      .ok (.condition ⟨"A) OR (B".data, false⟩) ∧
    parseExpressionTop "(A) OR (B)".data ≠
      .ok (.logical "OR".data (.condition ⟨"A".data, false⟩)
        (.condition ⟨"B".data, false⟩)) := by decide

/-- Claim C5 as amended: the parser strips the outer characters and
    recurses whenever the trimmed string merely starts with `(` and ends
    with `)`, whether or not they match; consequently `(A) OR (B)` is
    stripped to `A) OR (B` and parses as a leaf condition with that
    variable name. -/
theorem claim5_amended_naive_paren_strip :
    (∀ (f : Nat) (s : List Char),
      ((trimStr s).head? == some '(' && (trimStr s).getLast? == some ')') = true →
      parseExpression (f + 1) s =
        parseExpression f (((trimStr s).drop 1).dropLast)) ∧
    parseExpressionTop "(A) OR (B)".data =
      .ok (.condition ⟨"A) OR (B".data, false⟩) := by
  constructor
  · intro f s h
    simp only [parseExpression]
    rw [if_pos h]
  · decide

/-- Witness for the amended claim C5 at `(A) OR (B)` (length 10, so the
    top-level fuel is 10). -/
theorem claim5_amended_witness :
    parseExpression 10 "(A) OR (B)".data =
      parseExpression 9 (((trimStr "(A) OR (B)".data).drop 1).dropLast) :=
  claim5_amended_naive_paren_strip.1 9 "(A) OR (B)".data (by decide)

/-- Claim C6: a condition node with `negated = false` evaluates to true
    exactly when the answer is the string `yes`, with `negated = true`
    exactly when it is `no`, and evaluates to false under both polarities
    for any other answer, including an absent one. -/
theorem claim6_condition_evaluation :
    ∀ (v : List Char) (a : Answers),
      (evaluateExpression (.condition ⟨v, false⟩) a = true ↔ a v = some "yes".data) ∧
      (evaluateExpression (.condition ⟨v, true⟩) a = true ↔ a v = some "no".data) ∧
      (a v = none →
        evaluateExpression (.condition ⟨v, false⟩) a = false ∧
        evaluateExpression (.condition ⟨v, true⟩) a = false) ∧
      (∀ s, a v = some s → s ≠ "yes".data → s ≠ "no".data →
        evaluateExpression (.condition ⟨v, false⟩) a = false ∧
        evaluateExpression (.condition ⟨v, true⟩) a = false) := by
  intro v a
  refine ⟨?_, ?_, ?_, ?_⟩
  · simp [evaluateExpression]
  · simp [evaluateExpression]
  · intro h
    simp [evaluateExpression, h]
  · intro s h h1 h2
    simp [evaluateExpression, h, h1, h2]

/-- Witness for claim C6 with an unanswered variable: both polarities are
    false under the empty answer mapping. -/
theorem claim6_condition_evaluation_witness :
    evaluateExpression (.condition ⟨"q".data, false⟩) (fun _ => none) = false ∧
    evaluateExpression (.condition ⟨"q".data, true⟩) (fun _ => none) = false :=
  (claim6_condition_evaluation "q".data (fun _ => none)).2.2.1 rfl

/-- Claim C7: a logical node with operator `AND` evaluates to the
    conjunction of its children's values and one with `OR` to their
    disjunction, for every pair of subtrees and every answer mapping (the
    evaluator is total by construction). -/
theorem claim7_logical_evaluation :
    ∀ (L R : Expression) (a : Answers),
      evaluateExpression (.logical "AND".data L R) a =
        (evaluateExpression L a && evaluateExpression R a) ∧
      evaluateExpression (.logical "OR".data L R) a =
        (evaluateExpression L a || evaluateExpression R a) :=
  fun _ _ _ => ⟨rfl, rfl⟩

/-- Claim C8: the rule engine folds over the rules in declaration order
    starting from the empty running value; a matching rule whose result
    resolves overwrites the running value (so the last such rule wins), a
    non-matching or non-resolving rule leaves it unchanged, and if no rule
    ever matches with a resolvable result the output stays empty. -/
theorem claim8_last_match_wins :
    (∀ (results : List Variable) (a : Answers), selectResult [] results a = []) ∧
    (∀ (rules : List Rule) (r : Rule) (results : List Variable) (a : Answers)
        (rv : Variable),
      evaluateExpression r.expression a = true →
      findResult results r.result = some rv →
      selectResult (rules ++ [r]) results a = rv.value) ∧
    (∀ (rules : List Rule) (r : Rule) (results : List Variable) (a : Answers),
      evaluateExpression r.expression a = false ∨ findResult results r.result = none →
      selectResult (rules ++ [r]) results a = selectResult rules results a) ∧
    (∀ (rules : List Rule) (results : List Variable) (a : Answers),
      (∀ r ∈ rules, evaluateExpression r.expression a = false ∨
        findResult results r.result = none) →
      selectResult rules results a = []) := by
  refine ⟨fun _ _ => rfl, ?_, ?_, ?_⟩
  · intro rules r results a rv h1 h2
    simp [selectResult, List.foldl_append, selectStep, h1, h2]
  · intro rules r results a h
    rcases h with h | h
    · simp [selectResult, List.foldl_append, selectStep, h]
    · simp [selectResult, List.foldl_append, selectStep, h]
  · intro rules results a h
    exact foldl_selectStep_skip results a rules [] h

/-- Witness for claim C8: a single matching rule whose result resolves
    overwrites the empty running value with the result text. -/
theorem claim8_last_match_wins_witness :
    selectResult ([] ++ [⟨.condition ⟨"x".data, false⟩, "r1".data⟩])
      [⟨"r1".data, "v1".data⟩]
      (fun v => if v = "x".data then some "yes".data else none) = "v1".data :=
  claim8_last_match_wins.2.1 [] ⟨.condition ⟨"x".data, false⟩, "r1".data⟩
    [⟨"r1".data, "v1".data⟩]
    (fun v => if v = "x".data then some "yes".data else none)
    ⟨"r1".data, "v1".data⟩ (by decide) (by decide)

/-- Claim C9, counterexample: on the line `IF a THEN b THEN c` the greedy
    `(.*)` of the rule pattern anchors at the LAST `THEN`, so the condition
    text handed to the expression parser is `a THEN b` with result `c` —
    not the text before the first `THEN` with result `b` as claimed. -/
theorem claim9_counterexample :
    regexMatchRule "IF a THEN b THEN c".data = some ("a THEN b".data, "c".data) ∧
    regexMatchRule "IF a THEN b THEN c".data ≠ some ("a".data, "b".data) := by
  constructor <;> decide

/-- Claim C9 as amended: the capture of the greedy `(.*)` is the LONGEST
    slice, drawn only from characters `.` can match (so it never crosses a
    line terminator such as a mid-line `\r`), whose remainder still
    matches `\s+THEN\s+(\w+)` — in a line with several `THEN` tokens the
    condition runs up to the last such `THEN` reachable without crossing a
    line terminator.  `IF a THEN b THEN c` parses into the rule with
    condition leaf `a THEN b` and result `c`, while on
    `IF a THEN b \r x THEN c` the star is capped at the `\r` and the
    engine backtracks to captures `a` and `b`. -/
theorem claim9_amended_greedy_then :
    (∀ (body : List Char) (j : Nat) (g1 g2 : List Char),
      tryStar body j = some (g1, g2) →
      ∃ k, k ≤ j ∧ g1 = body.take k ∧ tailMatch (body.drop k) = some g2 ∧
        ∀ m, k < m → m ≤ j → tailMatch (body.drop m) = none) ∧
    (∀ (rest : List Char) (k : Nat) (g1 g2 : List Char),
      tryWs rest k = some (g1, g2) → ∀ c ∈ g1, isDot c = true) ∧
    regexMatchRule "IF a THEN b THEN c".data = some ("a THEN b".data, "c".data) ∧
    regexMatchRule "IF a THEN b \r x THEN c".data = some ("a".data, "b".data) ∧
    parseRules "IF a THEN b THEN c".data =
      .ok [⟨.condition ⟨"a THEN b".data, false⟩, "c".data⟩] := by
  exact ⟨fun body => tryStar_greedy body, fun rest => tryWs_star_dots rest,
    by decide, by decide, by decide⟩

/-- Witness for the amended claim C9: the greedy split on the body
    `a THEN b THEN c` (length 15). -/
theorem claim9_amended_witness :
    ∃ k, k ≤ 15 ∧ "a THEN b".data = ("a THEN b THEN c".data).take k ∧
      tailMatch (("a THEN b THEN c".data).drop k) = some "c".data ∧
      ∀ m, k < m → m ≤ 15 → tailMatch (("a THEN b THEN c".data).drop m) = none :=
  claim9_amended_greedy_then.1 "a THEN b THEN c".data 15 "a THEN b".data "c".data
    (by decide)

/-- Claim C10, counterexample: a leaf condition CAN carry a variable name
    containing `AND` outside any parentheses — deleting the first
    case-insensitive `NOT` can splice one together, as in `ANOTND x`, which
    parses to the leaf condition `AND x` (negated, since `NOT` occurs
    upper-case) even though `AND x` contains the token `AND` at the top
    level and no parenthesis at all. -/
theorem claim10_counterexample :
    parseExpressionTop "ANOTND x".data = .ok (.condition ⟨"AND x".data, true⟩) ∧
    containsTok "AND".data "AND x".data = true ∧
    '(' ∉ "AND x".data ∧ ')' ∉ "AND x".data := by decide

/-- Claim C10 as amended: any depth-0 `AND`/`OR` occurrence in the scanned
    string is treated as an operator — `ORDER` is split at position 0,
    leaving an empty left side, and fails with the invalid-logical-
    expression error — but the variable of a produced leaf may still
    contain such a token, either spliced together by the `NOT` strip
    (`ANOTND x`) or exposed by the unmatched-parenthesis strip
    (`(A) AND (B)`, whose interior hides the `AND` at negative depth). -/
theorem claim10_amended_order_fails :
    parseExpressionTop "ORDER".data =
      .error (.invalidLogicalExpression "ORDER".data) ∧
    findOp "ORDER".data 0 = some 0 ∧
    trimStr (("ORDER".data).take 0) = [] ∧
    parseExpressionTop "(A) AND (B)".data =
      .ok (.condition ⟨"A) AND (B".data, false⟩) := by decide

end XSys
